import Mathlib

/-!
Verification of the slot-extraction core of `src/main.py` (class
`BISlotExtractor`).

The embedding mirrors the Python source:

* a Raw Slot Record (an element of a `SlotList`) is an association list of
  field names to values; values in the modelled universe are strings or
  integers (`Value`), the two kinds the extraction loop distinguishes;
* a raw location record (`RawItem`) models a server JSON object restricted
  to the four keys `process_data` reads: `SlotList` (a list of slot
  records when present), `Lokasi`, `KaskelId`, `OpenDateToString`;
* `scanRecord` is the field-scanning loop of `process_data`
  (lines 123-129), `processRecord` the per-slot body (lines 122-133),
  `processSlots` the slot loop, `processItem` the per-location body
  (lines 119-141) and `processData` the whole normalization loop over the
  fetched data (lines 117-142);
* a Python `TypeError` (raised by `total_lokasi += sisa` when the
  `SisaQuota` value is a string) is modelled by `Option`: a `none` result
  means the call raised and produced no output at all;
* `refresh_token` (lines 94-104) and `get_all_data` (lines 106-114) are
  modelled as state transformers over `ExtractorState` (the stored
  `self.token`), taking the network responses as explicit inputs.
-/

/-- A field value of a server record in the modelled universe: Python
strings and integers, the two kinds the extraction code distinguishes
with `isinstance(v, str)`. -/
inductive Value where
  | str : String → Value
  | int : Int → Value
deriving DecidableEq, Repr

/-- A Raw Slot Record: a mapping from field names to values, modelled as
an association list in dictionary iteration order. -/
abbrev SlotRecord := List (String × Value)

/-- A raw location record, restricted to the keys `process_data`
accesses.  A `none` field models an absent key (so `dict.get` falls back
to its default). -/
structure RawItem where
  slotList : Option (List SlotRecord)
  lokasi : Option Value
  kaskelId : Option Value
  openDate : Option Value
deriving DecidableEq, Repr

/-- A Normalized Slot: the dict `{'waktu': ..., 'sisa': ..., 'waktu_id': ...}`
appended to `slots` on line 133. -/
structure NormSlot where
  waktu : String
  sisa : Int
  waktu_id : String
deriving DecidableEq, Repr

/-- A Normalized Location Entry: the dict appended to `processed` on
lines 135-141. -/
structure LocEntry where
  lokasi : Value
  kaskel_id : Value
  tanggal : Value
  total : Int
  slots : List NormSlot
deriving DecidableEq, Repr

/-- `leadMatch pat l` holds when `pat` is an initial segment of `l`. -/
def leadMatch : List Char → List Char → Bool
  | [], _ => true
  | _ :: _, [] => false
  | a :: as, b :: bs => a == b && leadMatch as bs

/-- `subMatch pat l` is the Python substring test `pat in l`. -/
def subMatch (pat : List Char) : List Char → Bool
  | [] => leadMatch pat []
  | l@(_ :: t) => leadMatch pat l || subMatch pat t

/-- Python whitespace stripped by `str.strip()`. -/
def isSpace (c : Char) : Bool :=
  c == (' ') || c == ('\t') || c == ('\n') || c == ('\r') || c == ('\x0b') || c == ('\x0c')

/-- Python `str.strip()` on the character list. -/
def stripChars (l : List Char) : List Char :=
  ((l.dropWhile isSpace).reverse.dropWhile isSpace).reverse

/-- Python `v.strip()`. -/
def pyStrip (s : String) : String := String.mk (stripChars s.toList)

/-- Python `v.upper()` on the character list (ASCII, as in the data). -/
def upChars (l : List Char) : List Char := l.map Char.toUpper

/-- The time-with-timezone test of line 126:
`any(tz in v.upper() for tz in ["WIB", "WITA", "WIT"])`. -/
def tzMatch (v : String) : Bool :=
  subMatch "WIB".toList (upChars v.toList) ||
  subMatch "WITA".toList (upChars v.toList) ||
  subMatch "WIT".toList (upChars v.toList)

/-- The identifier test of line 128: `len(v) == 36 and "-" in v`. -/
def idMatch (v : String) : Bool :=
  v.toList.length == 36 && v.toList.contains ('-')

/-- One iteration of the field loop of lines 124-129, acting on the pair
`(w_text, w_id)`.  Only the value of the field is inspected. -/
def scanStep (acc : String × String) (kv : String × Value) : String × String :=
  match kv.2 with
  | Value.str v =>
    if tzMatch v then (pyStrip v, acc.2)
    else if idMatch v then (acc.1, v)
    else acc
  | Value.int _ => acc

/-- The field loop of lines 123-129: fold over the record fields from the
initial sentinels `w_text = w_id = "N/A"`; the result is `(w_text, w_id)`. -/
def scanRecord (s : SlotRecord) : String × String :=
  s.foldl scanStep ("N/A", "N/A")

/-- Whether the value of one field is a string matching the timezone
pattern (the branch of line 126). -/
def tzVal (kv : String × Value) : Bool :=
  match kv.2 with
  | Value.str v => tzMatch v
  | Value.int _ => false

/-- Whether some string value of the record matches the timezone pattern. -/
def recordHasTZ (s : SlotRecord) : Bool := s.any tzVal

/-- Whether the value of one field is a string reaching the identifier
branch of line 128: not a timezone match, length 36, contains a hyphen. -/
def idOnlyVal (kv : String × Value) : Bool :=
  match kv.2 with
  | Value.str v => !tzMatch v && idMatch v
  | Value.int _ => false

/-- Whether some string value of the record reaches the identifier branch. -/
def recordHasId (s : SlotRecord) : Bool := s.any idOnlyVal

/-- Line 130, `sisa = s.get("SisaQuota", 0)`, combined with the use of
`sisa` in integer addition on line 131: an absent key defaults to `0`, an
integer value is used as is, and a string value makes
`total_lokasi += sisa` raise `TypeError` (modelled as `none`). -/
def getSisa (s : SlotRecord) : Option Int :=
  match s.lookup "SisaQuota" with
  | none => some 0
  | some (Value.int n) => some n
  | some (Value.str _) => none

/-- The body of the slot loop, lines 122-133, for one Raw Slot Record:
the quota contribution and (when `w_text != "N/A"`) the Normalized Slot. -/
def processRecord (s : SlotRecord) : Option (Int × Option NormSlot) :=
  match getSisa s with
  | none => none
  | some q =>
    some (q, if (scanRecord s).1 ≠ "N/A"
      then some (NormSlot.mk (scanRecord s).1 q (scanRecord s).2)
      else none)

/-- The slot loop of lines 120-133, threading `total_lokasi` and `slots`. -/
def processSlots : List SlotRecord → Int → List NormSlot → Option (Int × List NormSlot)
  | [], total, slots => some (total, slots)
  | s :: rest, total, slots =>
    match processRecord s with
    | none => none
    | some (q, os) => processSlots rest (total + q) (slots ++ os.toList)

/-- The per-location body of lines 119-141: run the slot loop, then emit
a Normalized Location Entry only if `slots` is nonempty (line 134), with
the three name fields read by key with default `"N/A"` (lines 136-138). -/
def processItem (item : RawItem) : Option (Option LocEntry) :=
  match processSlots (item.slotList.getD []) 0 [] with
  | none => none
  | some (total, slots) =>
    if slots.isEmpty then some none
    else some (some (LocEntry.mk
      (item.lokasi.getD (Value.str "N/A"))
      (item.kaskelId.getD (Value.str "N/A"))
      (item.openDate.getD (Value.str "N/A"))
      total slots))

/-- The normalization loop of `process_data` (lines 117-142) applied to a
fetched list of raw location records; `none` models a raised exception. -/
def processData : List RawItem → Option (List LocEntry)
  | [] => some []
  | item :: rest =>
    match processItem item with
    | none => none
    | some o =>
      match processData rest with
      | none => none
      | some l => some (o.toList ++ l)

/-- The extractor state: the stored `self.token` (line 92); the empty
string is the NoToken state (`if not self.token` on line 107). -/
structure ExtractorState where
  token : String
deriving DecidableEq, Repr

/-- Outcome of an HTTP request as the code observes it: either a response
body, or a raised transport exception (timeout, connection error). -/
inductive HttpResult where
  | exc : HttpResult
  | ok : String → HttpResult
deriving DecidableEq, Repr

/-- Try the literal `pat` at the head of `l`; on success return the rest. -/
def dropPat (pat : String) (l : List Char) : Option (List Char) :=
  if leadMatch pat.toList l then some (l.drop pat.toList.length) else none

/-- The part `.*?value="([^"]+)"` of the token regular expression
(line 97): scan forward (lazily, never across a newline, since `.` does
not match one) for the literal `value="`, then capture one or more
non-quote characters followed by the closing quote. -/
def valueScan : List Char → Option (List Char)
  | [] => none
  | c :: rest =>
    match dropPat "value=\"" (c :: rest) with
    | some after =>
      let cap := after.takeWhile (fun x => !(x == ('"')))
      if cap.length != 0 && cap.length < after.length then some cap
      else if !(c == ('\n')) then valueScan rest else none
    | none => if !(c == ('\n')) then valueScan rest else none

/-- `re.search` for `__RequestVerificationToken.*?value="([^"]+)"`
(line 97): try every start position, left to right. -/
def tokenScan : List Char → Option (List Char)
  | [] => none
  | c :: rest =>
    match dropPat "__RequestVerificationToken" (c :: rest) with
    | some after =>
      match valueScan after with
      | some cap => some cap
      | none => tokenScan rest
    | none => tokenScan rest

/-- The token extracted from a listing page body, when the pattern of
line 97 matches. -/
def findToken (body : String) : Option String :=
  match tokenScan body.toList with
  | some cap => some (String.mk cap)
  | none => none

/-- `refresh_token` (lines 94-104) as a state transformer: given the
stored state and the GET outcome, return the new state and the boolean
result.  On a pattern match the captured token is stored in `self.token`
(line 99) and `True` is returned; on no match or a transport exception
the state is left as it was and `False` is returned. -/
def refresh_token (st : ExtractorState) (resp : HttpResult) : ExtractorState × Bool :=
  match resp with
  | HttpResult.exc => (st, false)
  | HttpResult.ok body =>
    match findToken body with
    | some t => (ExtractorState.mk t, true)
    | none => (st, false)

/-- A parsed JSON value, for the body of the data response. -/
inductive JVal where
  | jstr : String → JVal
  | jnum : Int → JVal
  | jarr : List JVal → JVal
  | jobj : List (String × JVal) → JVal

/-- The data response as the code observes it: `exc` models a transport
failure or a body `r.json()` cannot parse (both raise, and the `except`
on line 113 catches them); `ok j` a body that parsed as JSON `j`. -/
inductive PostResp where
  | exc : PostResp
  | ok : JVal → PostResp

/-- The network requests `get_all_data` can issue, in order. -/
inductive NetAction where
  | getPage : NetAction
  | postData : NetAction
deriving DecidableEq, Repr

/-- Line 112, `r.json().get("data", [])`: on a JSON object, the value of
the `data` key, defaulting to the empty list; on any other JSON value
`.get` raises `AttributeError` (modelled as `none`, caught by the
`except` on line 113). -/
def jdataField : JVal → Option JVal
  | JVal.jobj fields => some ((fields.lookup "data").getD (JVal.jarr []))
  | _ => none

/-- The POST part of `get_all_data` (lines 110-114): issue the data
request and return the state (untouched), the returned value and the
request trace. -/
def doPost (st : ExtractorState) (pr : PostResp) (acts : List NetAction) :
    ExtractorState × JVal × List NetAction :=
  match pr with
  | PostResp.exc => (st, JVal.jarr [], acts ++ [NetAction.postData])
  | PostResp.ok j =>
    match jdataField j with
    | some v => (st, v, acts ++ [NetAction.postData])
    | none => (st, JVal.jarr [], acts ++ [NetAction.postData])

/-- `get_all_data` (lines 106-114) as a state transformer over the stored
token, taking the (potential) refresh response and the data response as
inputs and also returning the list of network requests made. -/
def get_all_data (st : ExtractorState) (rr : HttpResult) (pr : PostResp) :
    ExtractorState × JVal × List NetAction :=
  if st.token = "" then
    match refresh_token st rr with
    | (st2, true) => doPost st2 pr [NetAction.getPage]
    | (st2, false) => (st2, JVal.jarr [], [NetAction.getPage])
  else
    doPost st pr []

/-- The remaining quota of a Raw Slot Record as the spec reads it: the
`SisaQuota` value, defaulting to `0` when absent. -/
def specQuota (s : SlotRecord) : Int :=
  match s.lookup "SisaQuota" with
  | some (Value.int n) => n
  | _ => 0

/-- The sum of remaining quotas over all Raw Slot Records of a location. -/
def specQuotaSum (rs : List SlotRecord) : Int :=
  (rs.map specQuota).sum

/-- The Normalized Slot a Raw Slot Record contributes, if any. -/
def recSlot (s : SlotRecord) : Option NormSlot :=
  match processRecord s with
  | some (_, os) => os
  | none => none

/-- Whether the value of one field is a string matching the identifier
pattern (length 36, contains a hyphen), regardless of the timezone test. -/
def idVal (kv : String × Value) : Bool :=
  match kv.2 with
  | Value.str v => idMatch v
  | Value.int _ => false

/-- Fixture: the first Raw Slot Record of the spec scenario in section 8. -/
def slotA : SlotRecord :=
  [("SisaQuota", Value.int 3), ("Waktu", Value.str "08:00 WIB"),
   ("Id", Value.str "11111111-1111-1111-1111-111111111111")]

/-- Fixture: the second Raw Slot Record of the spec scenario (no time). -/
def slotB : SlotRecord :=
  [("SisaQuota", Value.int 2), ("Other", Value.str "no time here")]

/-- Fixture: the raw location record of the spec scenario. -/
def itemA : RawItem :=
  RawItem.mk (some [slotA, slotB]) (some (Value.str "A")) (some (Value.str "K1"))
    (some (Value.str "2024-01-01"))

/-- Fixture: the Normalized Location Entry the spec scenario expects. -/
def entryA : LocEntry :=
  LocEntry.mk (Value.str "A") (Value.str "K1") (Value.str "2024-01-01") 5
    [NormSlot.mk "08:00 WIB" 3 "11111111-1111-1111-1111-111111111111"]

/-- Fixture: a record with a time value but no identifier-shaped value. -/
def slotC : SlotRecord :=
  [("Waktu", Value.str "09:00 WIT"), ("SisaQuota", Value.int 4)]

/-- Fixture: a two-field record, and the same mapping in the other
iteration order. -/
def slotD : SlotRecord :=
  [("Waktu", Value.str "08:00 WIB"), ("SisaQuota", Value.int 3)]

/-- Fixture: the entries of `slotD` permuted. -/
def slotE : SlotRecord :=
  [("SisaQuota", Value.int 3), ("Waktu", Value.str "08:00 WIB")]

/-- Fixture: a location record with a parseable slot and no name fields. -/
def itemB : RawItem :=
  RawItem.mk (some [[("Waktu", Value.str "10:00 WITA")]]) none none none

example : tzMatch "08:00 WIB" = true := by decide
example : tzMatch "no time here" = false := by decide
example : idMatch "11111111-1111-1111-1111-111111111111" = true := by decide
example : pyStrip "  08:00 wita  " = "08:00 wita" := by decide
example :
    processRecord [("SisaQuota", Value.int 3), ("Waktu", Value.str "08:00 WIB"),
      ("Id", Value.str "11111111-1111-1111-1111-111111111111")] =
    some (3, some (NormSlot.mk "08:00 WIB" 3 "11111111-1111-1111-1111-111111111111")) := by
  decide
example :
    processData [RawItem.mk (some [[("SisaQuota", Value.int 3), ("Waktu", Value.str "08:00 WIB"),
        ("Id", Value.str "11111111-1111-1111-1111-111111111111")],
        [("SisaQuota", Value.int 2), ("Other", Value.str "no time here")]])
      (some (Value.str "A")) (some (Value.str "K1")) (some (Value.str "2024-01-01"))] =
    some [LocEntry.mk (Value.str "A") (Value.str "K1") (Value.str "2024-01-01") 5
      [NormSlot.mk "08:00 WIB" 3 "11111111-1111-1111-1111-111111111111"]] := by
  decide

example : findToken "leading text __RequestVerificationToken type=x value=\"TOK123\" more" = some "TOK123" := by
  decide
example : findToken "no token here value=\"TOK123\"" = none := by decide
example : findToken "__RequestVerificationToken \n value=\"TOK123\"" = none := by decide
example :
    refresh_token (ExtractorState.mk "") (HttpResult.ok "__RequestVerificationToken value=\"TOK\"") =
    (ExtractorState.mk "TOK", true) := by decide
example :
    get_all_data (ExtractorState.mk "T") HttpResult.exc PostResp.exc =
    (ExtractorState.mk "T", JVal.jarr [], [NetAction.postData]) := rfl
example :
    get_all_data (ExtractorState.mk "T") HttpResult.exc
      (PostResp.ok (JVal.jobj [("data", JVal.jnum 5)])) =
    (ExtractorState.mk "T", JVal.jnum 5, [NetAction.postData]) := rfl

/-- A match of a nonempty pattern forces its first character into the list. -/
theorem subMatch_mem (a : Char) (p l : List Char) (h : subMatch (a :: p) l = true) : a ∈ l := by
  induction l with
  | nil => simp [subMatch, leadMatch] at h
  | cons c t ih =>
    rw [subMatch, Bool.or_eq_true] at h
    rcases h with hl | hr
    · rw [leadMatch, Bool.and_eq_true] at hl
      have : a = c := eq_of_beq hl.1
      exact this ▸ List.mem_cons_self a t
    · exact List.mem_cons_of_mem c (ih hr)

/-- Every element survives `dropWhile` unless the predicate holds on it. -/
theorem mem_dropWhile_or (p : Char → Bool) (l : List Char) (x : Char) (hx : x ∈ l) :
    x ∈ l.dropWhile p ∨ p x = true := by
  induction l with
  | nil => cases hx
  | cons c t ih =>
    rcases List.mem_cons.mp hx with h | h
    · subst h
      cases hp : p x with
      | true => exact Or.inr rfl
      | false =>
        simp only [List.dropWhile, hp]
        exact Or.inl (List.mem_cons_self x t)
    · cases hp : p c with
      | true =>
        simp only [List.dropWhile, hp]
        exact ih h
      | false =>
        simp only [List.dropWhile, hp]
        exact Or.inl (List.mem_cons_of_mem c h)

/-- Every character of a string is in its stripped form or is whitespace. -/
theorem mem_strip_or (l : List Char) (x : Char) (hx : x ∈ l) :
    x ∈ stripChars l ∨ isSpace x = true := by
  rcases mem_dropWhile_or isSpace l x hx with h | h
  · have h2 : x ∈ (l.dropWhile isSpace).reverse := List.mem_reverse.mpr h
    rcases mem_dropWhile_or isSpace _ x h2 with h3 | h3
    · exact Or.inl (List.mem_reverse.mpr h3)
    · exact Or.inr h3
  · exact Or.inr h

/-- A timezone-matching value never strips to the sentinel `"N/A"`. -/
theorem tz_strip_ne (v : String) (h : tzMatch v = true) : pyStrip v ≠ "N/A" := by
  intro heq
  have hl : stripChars v.toList = "N/A".toList := congrArg String.toList heq
  have hW : ('W') ∈ upChars v.toList := by
    rw [tzMatch, Bool.or_eq_true, Bool.or_eq_true] at h
    have e1 : "WIB".toList = ['W', 'I', 'B'] := rfl
    have e2 : "WITA".toList = ['W', 'I', 'T', 'A'] := rfl
    have e3 : "WIT".toList = ['W', 'I', 'T'] := rfl
    rcases h with (h | h) | h
    · rw [e1] at h; exact subMatch_mem _ _ _ h
    · rw [e2] at h; exact subMatch_mem _ _ _ h
    · rw [e3] at h; exact subMatch_mem _ _ _ h
  rcases List.mem_map.mp hW with ⟨c, hc, hcu⟩
  rcases mem_strip_or v.toList c hc with h1 | h1
  · rw [hl] at h1
    have : c = ('N') ∨ c = ('/') ∨ c = ('A') := by simpa using h1
    rcases this with h2 | h2 | h2 <;> subst h2 <;> exact absurd hcu (by decide)
  · rw [isSpace] at h1
    simp only [Bool.or_eq_true, beq_iff_eq] at h1
    rcases h1 with ((((h2 | h2) | h2) | h2) | h2) | h2 <;> subst h2 <;>
      exact absurd hcu (by decide)

/-- If no field value matches the timezone pattern, the fold leaves `w_text`
at its initial value. -/
theorem scan_fst_keep (s : SlotRecord) : ∀ a b : String, recordHasTZ s = false →
    (s.foldl scanStep (a, b)).1 = a := by
  induction s with
  | nil => intro a b _; rfl
  | cons kv t ih =>
    intro a b h
    rw [recordHasTZ, List.any_cons, Bool.or_eq_false_iff] at h
    obtain ⟨h1, h2⟩ := h
    rw [List.foldl_cons]
    obtain ⟨k, val⟩ := kv
    cases val with
    | int n => exact ih a b h2
    | str v =>
      have htz : tzMatch v = false := h1
      by_cases hid : idMatch v = true
      · have hs : scanStep (a, b) (k, Value.str v) = (a, v) := by
          simp [scanStep, htz, hid]
        rw [hs]; exact ih a v h2
      · have hs : scanStep (a, b) (k, Value.str v) = (a, b) := by
          simp [scanStep, htz, hid]
        rw [hs]; exact ih a b h2

/-- If some field value matches the timezone pattern, `w_text` ends as the
stripped form of (the last) such value. -/
theorem scan_fst_last (s : SlotRecord) : ∀ a b : String, recordHasTZ s = true →
    ∃ v, tzMatch v = true ∧ (∃ kv ∈ s, kv.2 = Value.str v) ∧
      (s.foldl scanStep (a, b)).1 = pyStrip v := by
  induction s with
  | nil => intro a b h; simp [recordHasTZ] at h
  | cons kv t ih =>
    intro a b h
    rw [List.foldl_cons]
    cases ht : recordHasTZ t with
    | true =>
      obtain ⟨v, hv1, ⟨kv2, hkv2, hkv3⟩, hv4⟩ :=
        ih (scanStep (a, b) kv).1 (scanStep (a, b) kv).2 ht
      exact ⟨v, hv1, ⟨kv2, List.mem_cons_of_mem kv hkv2, hkv3⟩, hv4⟩
    | false =>
      have ht2 : t.any tzVal = false := ht
      rw [recordHasTZ, List.any_cons, ht2, Bool.or_false] at h
      obtain ⟨k, val⟩ := kv
      cases val with
      | int n => simp [tzVal] at h
      | str v =>
        have htz : tzMatch v = true := h
        have hs : scanStep (a, b) (k, Value.str v) = (pyStrip v, b) := by
          simp [scanStep, htz]
        rw [hs]
        exact ⟨v, htz, ⟨(k, Value.str v), List.mem_cons_self _ _, rfl⟩,
          scan_fst_keep t (pyStrip v) b ht⟩

/-- If no field value reaches the identifier branch, the fold leaves `w_id`
at its initial value. -/
theorem scan_snd_keep (s : SlotRecord) : ∀ a b : String, recordHasId s = false →
    (s.foldl scanStep (a, b)).2 = b := by
  induction s with
  | nil => intro a b _; rfl
  | cons kv t ih =>
    intro a b h
    rw [recordHasId, List.any_cons, Bool.or_eq_false_iff] at h
    obtain ⟨h1, h2⟩ := h
    rw [List.foldl_cons]
    obtain ⟨k, val⟩ := kv
    cases val with
    | int n => exact ih a b h2
    | str v =>
      by_cases htz : tzMatch v = true
      · have hs : scanStep (a, b) (k, Value.str v) = (pyStrip v, b) := by
          simp [scanStep, htz]
        rw [hs]; exact ih (pyStrip v) b h2
      · have htz2 : tzMatch v = false := Bool.eq_false_iff.mpr htz
        have hid : idMatch v = false := by
          have h3 : (!tzMatch v && idMatch v) = false := h1
          rw [htz2] at h3
          simpa using h3
        have hs : scanStep (a, b) (k, Value.str v) = (a, b) := by
          simp [scanStep, htz2, hid]
        rw [hs]; exact ih a b h2

/-- If some field value reaches the identifier branch, `w_id` ends as (the
last) such value. -/
theorem scan_snd_last (s : SlotRecord) : ∀ a b : String, recordHasId s = true →
    ∃ v, tzMatch v = false ∧ idMatch v = true ∧ (∃ kv ∈ s, kv.2 = Value.str v) ∧
      (s.foldl scanStep (a, b)).2 = v := by
  induction s with
  | nil => intro a b h; simp [recordHasId] at h
  | cons kv t ih =>
    intro a b h
    rw [List.foldl_cons]
    cases ht : recordHasId t with
    | true =>
      obtain ⟨v, hv1, hv2, ⟨kv2, hkv2, hkv3⟩, hv4⟩ :=
        ih (scanStep (a, b) kv).1 (scanStep (a, b) kv).2 ht
      exact ⟨v, hv1, hv2, ⟨kv2, List.mem_cons_of_mem kv hkv2, hkv3⟩, hv4⟩
    | false =>
      have ht2 : t.any idOnlyVal = false := ht
      rw [recordHasId, List.any_cons, ht2, Bool.or_false] at h
      obtain ⟨k, val⟩ := kv
      cases val with
      | int n => simp [idOnlyVal] at h
      | str v =>
        have h3 : (!tzMatch v && idMatch v) = true := h
        rw [Bool.and_eq_true, Bool.not_eq_true'] at h3
        obtain ⟨htz, hid⟩ := h3
        have hs : scanStep (a, b) (k, Value.str v) = (a, v) := by
          simp [scanStep, htz, hid]
        rw [hs]
        exact ⟨v, htz, hid, ⟨(k, Value.str v), List.mem_cons_self _ _, rfl⟩,
          scan_snd_keep t a v ht⟩

/-- `w_id` is never set to a timezone-matching value: the fold preserves
the invariant that `w_id` does not match the timezone pattern. -/
theorem scan_snd_no_tz (s : SlotRecord) : ∀ a b : String, tzMatch b = false →
    tzMatch ((s.foldl scanStep (a, b)).2) = false := by
  induction s with
  | nil => intro a b hb; exact hb
  | cons kv t ih =>
    intro a b hb
    rw [List.foldl_cons]
    obtain ⟨k, val⟩ := kv
    cases val with
    | int n => exact ih a b hb
    | str v =>
      by_cases htz : tzMatch v = true
      · have hs : scanStep (a, b) (k, Value.str v) = (pyStrip v, b) := by
          simp [scanStep, htz]
        rw [hs]; exact ih (pyStrip v) b hb
      · have htz2 : tzMatch v = false := Bool.eq_false_iff.mpr htz
        by_cases hid : idMatch v = true
        · have hs : scanStep (a, b) (k, Value.str v) = (a, v) := by
            simp [scanStep, htz2, hid]
          rw [hs]; exact ih a v htz2
        · have hs : scanStep (a, b) (k, Value.str v) = (a, b) := by
            simp [scanStep, htz2, hid]
          rw [hs]; exact ih a b hb

/-- Bool-to-Prop bridge: a record has a timezone-matching string value. -/
theorem recordHasTZ_iff (s : SlotRecord) :
    recordHasTZ s = true ↔ ∃ kv ∈ s, ∃ v, kv.2 = Value.str v ∧ tzMatch v = true := by
  rw [recordHasTZ, List.any_eq_true]
  constructor
  · rintro ⟨kv, hm, hv⟩
    obtain ⟨k, val⟩ := kv
    cases val with
    | int n => simp [tzVal] at hv
    | str v => exact ⟨(k, Value.str v), hm, v, rfl, hv⟩
  · rintro ⟨kv, hm, v, hval, htz⟩
    refine ⟨kv, hm, ?_⟩
    obtain ⟨k, val⟩ := kv
    have hv2 : val = Value.str v := hval
    subst hv2
    exact htz

/-- A successful association-list lookup yields a member of the list. -/
theorem lookup_mem {s : SlotRecord} {k : String} {v : Value} (h : s.lookup k = some v) :
    (k, v) ∈ s := by
  induction s with
  | nil => simp [List.lookup] at h
  | cons kv t ih =>
    obtain ⟨k2, v2⟩ := kv
    cases hk : (k == k2) with
    | true =>
      simp only [List.lookup, hk] at h
      have hkk : k = k2 := eq_of_beq hk
      have hvv : v2 = v := by simpa using h
      rw [← hkk, ← hvv]
      exact List.mem_cons_self _ _
    | false =>
      simp only [List.lookup, hk] at h
      exact List.mem_cons_of_mem _ (ih h)

/-- With nodup keys, membership determines the lookup result. -/
theorem lookup_eq_of_mem_nodup {s : SlotRecord} (hnd : (s.map Prod.fst).Nodup) {k : String}
    {v : Value} (hm : (k, v) ∈ s) : s.lookup k = some v := by
  induction s with
  | nil => cases hm
  | cons kv t ih =>
    obtain ⟨k2, v2⟩ := kv
    rw [List.map_cons, List.nodup_cons] at hnd
    obtain ⟨hk2, hnd2⟩ := hnd
    rcases List.mem_cons.mp hm with h | h
    · rw [Prod.mk.injEq] at h
      obtain ⟨h1, h2⟩ := h
      subst h1; subst h2
      simp [List.lookup]
    · have hkmem : k ∈ t.map Prod.fst := List.mem_map.mpr ⟨(k, v), h, rfl⟩
      have hne : k ≠ k2 := fun he => hk2 (he ▸ hkmem)
      have hbeq : (k == k2) = false := beq_eq_false_iff_ne.mpr hne
      simp only [List.lookup, hbeq]
      exact ih hnd2 h

/-- A lookup fails exactly when the key is absent. -/
theorem lookup_none_iff {s : SlotRecord} {k : String} :
    s.lookup k = none ↔ k ∉ s.map Prod.fst := by
  induction s with
  | nil => simp [List.lookup]
  | cons kv t ih =>
    obtain ⟨k2, v2⟩ := kv
    cases hk : (k == k2) with
    | true =>
      have hkk : k = k2 := eq_of_beq hk
      simp [List.lookup, hk, hkk]
    | false =>
      have hne : k ≠ k2 := ne_of_beq_false hk
      simp [List.lookup, hk, hne, ih]

/-- Lookups in a mapping (nodup keys) are invariant under permutation of
the entries. -/
theorem lookup_perm {s s2 : SlotRecord} (hp : s.Perm s2) (hnd : (s.map Prod.fst).Nodup)
    (k : String) : s.lookup k = s2.lookup k := by
  have hnd2 : (s2.map Prod.fst).Nodup := ((hp.map Prod.fst).nodup_iff).mp hnd
  cases h : s.lookup k with
  | some v =>
    exact (lookup_eq_of_mem_nodup hnd2 (hp.mem_iff.mp (lookup_mem h))).symm
  | none =>
    cases h2 : s2.lookup k with
    | none => rfl
    | some v =>
      have hmem : (k, v) ∈ s := hp.mem_iff.mpr (lookup_mem h2)
      rw [lookup_eq_of_mem_nodup hnd hmem] at h
      cases h

/-- The `SisaQuota` value that survives the integer addition is the quota
the spec reads off the record. -/
theorem specQuota_of_getSisa {s : SlotRecord} {q : Int} (h : getSisa s = some q) :
    specQuota s = q := by
  rw [getSisa] at h
  rw [specQuota]
  cases hl : s.lookup "SisaQuota" with
  | none =>
    rw [hl] at h
    simpa using h
  | some val =>
    rw [hl] at h
    cases val with
    | int n => simpa using h
    | str v => exact Option.noConfusion h

/-- The accumulated total of the slot loop is the initial total plus the
sum of the remaining quotas of all processed Raw Slot Records. -/
theorem processSlots_total (rs : List SlotRecord) : ∀ (t : Int) (acc : List NormSlot)
    (tot : Int) (sl : List NormSlot), processSlots rs t acc = some (tot, sl) →
    tot = t + specQuotaSum rs := by
  induction rs with
  | nil =>
    intro t acc tot sl h
    simp only [processSlots, Option.some.injEq, Prod.mk.injEq] at h
    rw [← h.1]
    simp [specQuotaSum]
  | cons s rest ih =>
    intro t acc tot sl h
    rw [processSlots] at h
    cases hr : processRecord s with
    | none => rw [hr] at h; exact Option.noConfusion h
    | some p =>
      obtain ⟨q, os⟩ := p
      rw [hr] at h
      have htot := ih (t + q) (acc ++ os.toList) tot sl h
      have hsisa : getSisa s = some q := by
        rw [processRecord] at hr
        cases hs : getSisa s with
        | none => rw [hs] at hr; exact Option.noConfusion hr
        | some q2 =>
          rw [hs] at hr
          simp only [Option.some.injEq, Prod.mk.injEq] at hr
          rw [hr.1]
      have hq : specQuota s = q := specQuota_of_getSisa hsisa
      have hsum : specQuotaSum (s :: rest) = specQuota s + specQuotaSum rest := by
        simp [specQuotaSum]
      rw [htot, hsum, hq]
      ring

/-- The slot list built by the slot loop is the initial accumulator
followed by the contributed Normalized Slots in record order. -/
theorem processSlots_slots (rs : List SlotRecord) : ∀ (t : Int) (acc : List NormSlot)
    (tot : Int) (sl : List NormSlot), processSlots rs t acc = some (tot, sl) →
    sl = acc ++ rs.filterMap recSlot := by
  induction rs with
  | nil =>
    intro t acc tot sl h
    simp only [processSlots, Option.some.injEq, Prod.mk.injEq] at h
    rw [← h.2]
    simp
  | cons s rest ih =>
    intro t acc tot sl h
    rw [processSlots] at h
    cases hr : processRecord s with
    | none => rw [hr] at h; exact Option.noConfusion h
    | some p =>
      obtain ⟨q, os⟩ := p
      rw [hr] at h
      have hsl := ih (t + q) (acc ++ os.toList) tot sl h
      have hrs : recSlot s = os := by rw [recSlot, hr]
      rw [hsl, List.filterMap_cons, hrs]
      cases os with
      | none => simp
      | some x => simp

/-- Every record of a successfully processed slot list processed without a
type error. -/
theorem processSlots_record (rs : List SlotRecord) : ∀ (t : Int) (acc : List NormSlot)
    (x : Int × List NormSlot), processSlots rs t acc = some x →
    ∀ s ∈ rs, ∃ q os, processRecord s = some (q, os) := by
  induction rs with
  | nil => intro t acc x _ s hs; cases hs
  | cons s2 rest ih =>
    intro t acc x h s hs
    rw [processSlots] at h
    cases hr : processRecord s2 with
    | none => rw [hr] at h; exact Option.noConfusion h
    | some p =>
      obtain ⟨q, os⟩ := p
      rw [hr] at h
      rcases List.mem_cons.mp hs with h2 | h2
      · exact ⟨q, os, h2 ▸ hr⟩
      · exact ih (t + q) (acc ++ os.toList) x h s h2

/-- Every entry of a processed batch comes from some raw location record. -/
theorem processData_mem_src (data : List RawItem) : ∀ (out : List LocEntry) (e : LocEntry),
    processData data = some out → e ∈ out →
    ∃ item ∈ data, processItem item = some (some e) := by
  induction data with
  | nil =>
    intro out e h he
    simp only [processData, Option.some.injEq] at h
    rw [← h] at he
    cases he
  | cons item rest ih =>
    intro out e h he
    rw [processData] at h
    cases hi : processItem item with
    | none => rw [hi] at h; exact Option.noConfusion h
    | some o =>
      rw [hi] at h
      cases hrest : processData rest with
      | none => rw [hrest] at h; exact Option.noConfusion h
      | some l =>
        rw [hrest] at h
        simp only [Option.some.injEq] at h
        rw [← h] at he
        rcases List.mem_append.mp he with h1 | h1
        · cases o with
          | none => cases h1
          | some e2 =>
            have he2 : e = e2 := by simpa using h1
            exact ⟨item, List.mem_cons_self _ _, by rw [hi, he2]⟩
        · obtain ⟨item2, hm2, hp2⟩ := ih l e hrest h1
          exact ⟨item2, List.mem_cons_of_mem _ hm2, hp2⟩

/-- Every raw location record of a successfully processed batch itself
processed without a type error. -/
theorem processData_item_some (data : List RawItem) : ∀ (out : List LocEntry)
    (item : RawItem), processData data = some out → item ∈ data →
    ∃ r, processItem item = some r := by
  induction data with
  | nil => intro out item _ hm; cases hm
  | cons item2 rest ih =>
    intro out item h hm
    rw [processData] at h
    cases hi : processItem item2 with
    | none => rw [hi] at h; exact Option.noConfusion h
    | some o =>
      rw [hi] at h
      cases hrest : processData rest with
      | none => rw [hrest] at h; exact Option.noConfusion h
      | some l =>
        rcases List.mem_cons.mp hm with h2 | h2
        · exact ⟨o, h2 ▸ hi⟩
        · exact ih l item hrest h2

/-- An emitted entry of a member record is in the batch output. -/
theorem processData_mem_out (data : List RawItem) : ∀ (out : List LocEntry)
    (item : RawItem) (e : LocEntry), processData data = some out → item ∈ data →
    processItem item = some (some e) → e ∈ out := by
  induction data with
  | nil => intro out item e _ hm; cases hm
  | cons item2 rest ih =>
    intro out item e h hm hp
    rw [processData] at h
    cases hi : processItem item2 with
    | none => rw [hi] at h; exact Option.noConfusion h
    | some o =>
      rw [hi] at h
      cases hrest : processData rest with
      | none => rw [hrest] at h; exact Option.noConfusion h
      | some l =>
        rw [hrest] at h
        simp only [Option.some.injEq] at h
        rw [← h]
        rcases List.mem_cons.mp hm with h2 | h2
        · rw [← h2] at hi
          rw [hp] at hi
          have ho : o = some e := by simpa using hi.symm
          rw [ho]
          exact List.mem_append.mpr (Or.inl (by simp))
        · exact List.mem_append.mpr (Or.inr (ih l item e hrest h2 hp))

/-- `w_text` ends different from the sentinel exactly when some field value
matches the timezone pattern. -/
theorem scan_fst_ne_iff (s : SlotRecord) :
    (scanRecord s).1 ≠ "N/A" ↔ recordHasTZ s = true := by
  constructor
  · intro h
    cases ht : recordHasTZ s with
    | true => rfl
    | false =>
      rw [scanRecord] at h
      exact absurd (scan_fst_keep s "N/A" "N/A" ht) h
  · intro h
    obtain ⟨v, hv1, -, hv3⟩ := scan_fst_last s "N/A" "N/A" h
    rw [scanRecord, hv3]
    exact tz_strip_ne v hv1

/-- A processed Raw Slot Record contributes a Normalized Slot exactly when
some field value matches the timezone pattern. -/
theorem recSlot_isSome_iff {s : SlotRecord} {q : Int} {os : Option NormSlot}
    (h : processRecord s = some (q, os)) : os.isSome = true ↔ recordHasTZ s = true := by
  rw [processRecord] at h
  cases hs : getSisa s with
  | none => rw [hs] at h; exact Option.noConfusion h
  | some q2 =>
    rw [hs] at h
    simp only [Option.some.injEq, Prod.mk.injEq] at h
    obtain ⟨-, h2⟩ := h
    by_cases hT : recordHasTZ s = true
    · have hne := (scan_fst_ne_iff s).mpr hT
      rw [← h2]
      simp [hne, hT]
    · have hF : recordHasTZ s = false := Bool.eq_false_iff.mpr hT
      have heq : (scanRecord s).1 = "N/A" := by
        by_contra hne
        exact hT ((scan_fst_ne_iff s).mp hne)
      rw [← h2]
      simp [heq, hF]

/-- `any` is invariant under permutation of the list. -/
theorem any_of_perm {α : Type} (p : α → Bool) {l1 l2 : List α} (hp : l1.Perm l2) :
    l1.any p = l2.any p := by
  cases h2 : l2.any p with
  | true =>
    obtain ⟨x, hm, hx⟩ := List.any_eq_true.mp h2
    exact List.any_eq_true.mpr ⟨x, hp.mem_iff.mpr hm, hx⟩
  | false =>
    cases h1 : l1.any p with
    | false => rfl
    | true =>
      obtain ⟨x, hm, hx⟩ := List.any_eq_true.mp h1
      exact absurd hx (List.any_eq_false.mp h2 x (hp.mem_iff.mp hm))

/-- A successfully processed raw location record is emitted exactly when
some of its Raw Slot Records has a timezone-matching string value. -/
theorem processItem_emits_iff {item : RawItem} {r : Option LocEntry}
    (h : processItem item = some r) :
    (∃ e, r = some e) ↔ ∃ s ∈ item.slotList.getD [], recordHasTZ s = true := by
  rw [processItem] at h
  cases hps : processSlots (item.slotList.getD []) 0 [] with
  | none => rw [hps] at h; exact Option.noConfusion h
  | some p =>
    obtain ⟨tot, sl⟩ := p
    simp only [hps] at h
    have hsl : sl = [] ++ (item.slotList.getD []).filterMap recSlot :=
      processSlots_slots _ 0 [] tot sl hps
    rw [List.nil_append] at hsl
    constructor
    · rintro ⟨e, he⟩
      by_cases hemp : sl.isEmpty = true
      · rw [if_pos hemp] at h
        have hr : none = r := by simpa using h
        rw [← hr] at he
        exact Option.noConfusion he
      · have hne : sl ≠ [] := fun hn => hemp (by rw [hn]; rfl)
        rw [hsl] at hne
        have hex : ∃ s ∈ item.slotList.getD [], recSlot s ≠ none := by
          by_contra hall
          push_neg at hall
          exact hne (List.filterMap_eq_nil_iff.mpr hall)
        obtain ⟨s, hsmem, hsome⟩ := hex
        refine ⟨s, hsmem, ?_⟩
        obtain ⟨q, os, hpr⟩ := processSlots_record _ 0 [] (tot, sl) hps s hsmem
        have hos : os ≠ none := by
          intro hn
          apply hsome
          rw [recSlot, hpr, hn]
        exact (recSlot_isSome_iff hpr).mp (Option.ne_none_iff_isSome.mp hos)
    · rintro ⟨s, hsmem, hT⟩
      obtain ⟨q, os, hpr⟩ := processSlots_record _ 0 [] (tot, sl) hps s hsmem
      have hos : os.isSome = true := (recSlot_isSome_iff hpr).mpr hT
      obtain ⟨x, hx⟩ := Option.isSome_iff_exists.mp hos
      have hmem : x ∈ sl := by
        rw [hsl]
        exact List.mem_filterMap.mpr ⟨s, hsmem, by rw [recSlot, hpr, hx]⟩
      have hemp : sl.isEmpty = false := by
        cases sl with
        | nil => cases hmem
        | cons y t => rfl
      rw [hemp] at h
      simp only [Bool.false_eq_true, if_false, Option.some.injEq] at h
      exact ⟨_, h.symm⟩

/-- C1: every Normalized Location Entry emitted by the normalization loop
has `total` equal to the sum of the `SisaQuota` values (defaulting to 0
when absent) over all Raw Slot Records of its location, including records
that produced no Normalized Slot. -/
theorem c1_total_quota_invariant (data : List RawItem) (out : List LocEntry) (e : LocEntry)
    (h : processData data = some out) (he : e ∈ out) :
    ∃ item ∈ data, processItem item = some (some e) ∧
      e.total = specQuotaSum (item.slotList.getD []) := by
  obtain ⟨item, hm, hp⟩ := processData_mem_src data out e h he
  refine ⟨item, hm, hp, ?_⟩
  rw [processItem] at hp
  cases hps : processSlots (item.slotList.getD []) 0 [] with
  | none => rw [hps] at hp; exact Option.noConfusion hp
  | some p =>
    obtain ⟨tot, sl⟩ := p
    simp only [hps] at hp
    have htot : tot = 0 + specQuotaSum (item.slotList.getD []) :=
      processSlots_total _ 0 [] tot sl hps
    by_cases hemp : sl.isEmpty = true
    · rw [if_pos hemp] at hp
      simp at hp
    · rw [if_neg hemp] at hp
      simp only [Option.some.injEq] at hp
      rw [← hp]
      show tot = specQuotaSum (item.slotList.getD [])
      rw [htot, zero_add]

/-- C1 witness: the spec scenario batch applied concretely. -/
theorem c1_total_quota_invariant_witness :
    ∃ item ∈ [itemA], processItem item = some (some entryA) ∧
      entryA.total = specQuotaSum (item.slotList.getD []) :=
  c1_total_quota_invariant [itemA] [entryA] entryA (by decide) (by decide)

/-- C5: in a batch processed without a type error, a raw location record
is emitted if and only if some of its Raw Slot Records contains a string
value matching the timezone pattern; an emitted entry is in the output. -/
theorem c5_inclusion_iff_tz (data : List RawItem) (out : List LocEntry) (item : RawItem)
    (h : processData data = some out) (hm : item ∈ data) :
    (∃ e ∈ out, processItem item = some (some e)) ↔
    ∃ s ∈ item.slotList.getD [], ∃ kv ∈ s, ∃ v, kv.2 = Value.str v ∧ tzMatch v = true := by
  obtain ⟨r, hr⟩ := processData_item_some data out item h hm
  constructor
  · rintro ⟨e, -, hp⟩
    have hre : r = some e := by
      have h2 := hr.symm.trans hp
      simpa using h2
    obtain ⟨s, hsmem, hT⟩ := (processItem_emits_iff hr).mp ⟨e, hre⟩
    obtain ⟨kv, hkvm, v, hv, htz⟩ := (recordHasTZ_iff s).mp hT
    exact ⟨s, hsmem, kv, hkvm, v, hv, htz⟩
  · rintro ⟨s, hsmem, kv, hkvm, v, hv, htz⟩
    have hT : recordHasTZ s = true := (recordHasTZ_iff s).mpr ⟨kv, hkvm, v, hv, htz⟩
    obtain ⟨e, he⟩ := (processItem_emits_iff hr).mpr ⟨s, hsmem, hT⟩
    refine ⟨e, ?_, by rw [hr, he]⟩
    exact processData_mem_out data out item e h hm (by rw [hr, he])

/-- C5 witness: the inclusion criterion instantiated on the spec scenario. -/
theorem c5_inclusion_iff_tz_witness :
    (∃ e ∈ [entryA], processItem itemA = some (some e)) ↔
    ∃ s ∈ itemA.slotList.getD [], ∃ kv ∈ s, ∃ v, kv.2 = Value.str v ∧ tzMatch v = true :=
  c5_inclusion_iff_tz [itemA] [entryA] itemA (by decide) (by decide)

/-- C7: a Raw Slot Record with a timezone-matching string value but no
string value of length 36 containing a hyphen produces a Normalized Slot
whose identifier is the sentinel `"N/A"` rather than failing. -/
theorem c7_default_slot_id (s : SlotRecord) (q : Int)
    (h1 : recordHasTZ s = true)
    (h2 : s.any idVal = false)
    (hq : getSisa s = some q) :
    ∃ w, processRecord s = some (q, some (NormSlot.mk w q "N/A")) := by
  have hid : recordHasId s = false := by
    rw [recordHasId, List.any_eq_false]
    intro kv hkv
    have hkv2 := List.any_eq_false.mp h2 kv hkv
    obtain ⟨k, val⟩ := kv
    cases val with
    | int n => simp [idOnlyVal]
    | str v =>
      have hv : idMatch v = false := by
        by_contra hb
        exact hkv2 (by simpa [idVal] using hb)
      simp [idOnlyVal, hv]
  have hsnd : (scanRecord s).2 = "N/A" := by
    rw [scanRecord]
    exact scan_snd_keep s "N/A" "N/A" hid
  have hne : (scanRecord s).1 ≠ "N/A" := (scan_fst_ne_iff s).mpr h1
  refine ⟨(scanRecord s).1, ?_⟩
  simp only [processRecord, hq, if_pos hne, hsnd]

/-- C7 witness: a concrete record with a time value and no identifier. -/
theorem c7_default_slot_id_witness :
    ∃ w, processRecord slotC = some (4, some (NormSlot.mk w 4 "N/A")) :=
  c7_default_slot_id slotC 4 (by decide) (by decide) (by decide)

/-- C9: the slot identifier produced by the field scan never matches the
timezone pattern: a timezone-matching value is claimed by the time branch
(the `elif` of line 128 is unreachable for it), so it is never used as the
identifier. -/
theorem c9_tz_value_never_id (s : SlotRecord) : tzMatch ((scanRecord s).2) = false := by
  rw [scanRecord]
  exact scan_snd_no_tz s "N/A" "N/A" (by decide)

/-- C10: a raw location record with a parseable slot but missing name,
kaskel-id and open-date keys is still emitted, with each missing field
defaulted to the sentinel `"N/A"`. -/
theorem c10_missing_fields_default (item : RawItem) (tot : Int) (sl : List NormSlot)
    (h1 : item.lokasi = none) (h2 : item.kaskelId = none) (h3 : item.openDate = none)
    (h4 : processSlots (item.slotList.getD []) 0 [] = some (tot, sl))
    (h5 : sl ≠ []) :
    processItem item = some (some (LocEntry.mk (Value.str "N/A") (Value.str "N/A")
      (Value.str "N/A") tot sl)) := by
  have hemp : sl.isEmpty = false := by
    cases sl with
    | nil => exact absurd rfl h5
    | cons x t => rfl
  simp [processItem, h4, hemp, h1, h2, h3]

/-- C10 witness: a concrete location record with no name fields. -/
theorem c10_missing_fields_default_witness :
    processItem itemB = some (some (LocEntry.mk (Value.str "N/A") (Value.str "N/A")
      (Value.str "N/A") 0 [NormSlot.mk "10:00 WITA" 0 "N/A"])) :=
  c10_missing_fields_default itemB 0 [NormSlot.mk "10:00 WITA" 0 "N/A"]
    rfl rfl rfl (by decide) (by decide)

/-- The POST phase never touches the stored token. -/
theorem doPost_fst (st : ExtractorState) (pr : PostResp) (acts : List NetAction) :
    (doPost st pr acts).1 = st := by
  cases pr with
  | exc => rfl
  | ok j =>
    simp only [doPost]
    cases jdataField j <;> rfl

/-- C2 counterexample: renaming the quota field while keeping every value
changes the produced Normalized Slot (its `sisa` field), because the
quota is read by the fixed name `SisaQuota`, not by value pattern. -/
theorem c2_counterexample :
    processRecord [("SisaQuota", Value.int 3), ("Waktu", Value.str "08:00 WIB")] =
      some (3, some (NormSlot.mk "08:00 WIB" 3 "N/A")) ∧
    processRecord [("Quota", Value.int 3), ("Waktu", Value.str "08:00 WIB")] =
      some (0, some (NormSlot.mk "08:00 WIB" 0 "N/A")) := by
  exact ⟨by decide, by decide⟩

/-- C2 (amended): the field scan producing `display_time` (`w_text`) and
`slot_id` (`w_id`) only pattern-matches values, so any renaming of the
field names that keeps the values leaves the scan result unchanged; only
the `remaining_quota` read of `SisaQuota` depends on a field name. -/
theorem c2_amended_rename_invariant (s : SlotRecord) (f : String → String) :
    scanRecord (s.map (fun kv => (f kv.1, kv.2))) = scanRecord s := by
  rw [scanRecord, scanRecord]
  have hgen : ∀ (l : SlotRecord) (acc : String × String),
      (l.map (fun kv => (f kv.1, kv.2))).foldl scanStep acc = l.foldl scanStep acc := by
    intro l
    induction l with
    | nil => intro acc; rfl
    | cons kv t ih =>
      intro acc
      rw [List.map_cons, List.foldl_cons, List.foldl_cons]
      rw [show scanStep acc (f kv.1, kv.2) = scanStep acc kv from rfl]
      exact ih _
  exact hgen s _

/-- C3 counterexample: with a stored token and a data response that is not
the expected structured payload (a raised parse error), the extractor
keeps its token — it does not transition to the NoToken state. -/
theorem c3_counterexample :
    (get_all_data (ExtractorState.mk "T") HttpResult.exc PostResp.exc).1.token = "T" ∧
    "T" ≠ "" := ⟨rfl, by decide⟩

/-- C3 (amended): when a token is stored, `get_all_data` never changes the
extractor state, whatever the data response is; an unparseable response
yields an empty result but the stale token is retained, so the next call
reuses it without refreshing. -/
theorem c3_amended_token_retained (st : ExtractorState) (rr : HttpResult) (pr : PostResp)
    (h : st.token ≠ "") : (get_all_data st rr pr).1 = st := by
  rw [get_all_data, if_neg h]
  exact doPost_fst st pr []

/-- C3 witness: amended statement applied at a concrete stale state. -/
theorem c3_amended_token_retained_witness :
    (get_all_data (ExtractorState.mk "TOK") HttpResult.exc PostResp.exc).1 =
      ExtractorState.mk "TOK" :=
  c3_amended_token_retained (ExtractorState.mk "TOK") HttpResult.exc PostResp.exc
    (by decide)

/-- C4 counterexample: on a successful pattern match `refresh_token` does
mutate the stored token field (line 99), contradicting that the stored
token is unchanged whether it succeeds or fails. -/
theorem c4_counterexample :
    (refresh_token (ExtractorState.mk "")
      (HttpResult.ok "__RequestVerificationToken value=\"TOK\"")).1.token = "TOK" ∧
    (ExtractorState.mk "").token ≠ "TOK" ∧
    (refresh_token (ExtractorState.mk "")
      (HttpResult.ok "__RequestVerificationToken value=\"TOK\"")).2 = true := by
  refine ⟨by decide, by decide, by decide⟩

/-- C4 (amended): `refresh_token` stores the captured token itself: after
the call the stored token is the captured value when the pattern matched,
and is unchanged on a transport failure or when no pattern matched. -/
theorem c4_amended_refresh_stores_token (st : ExtractorState) (resp : HttpResult) :
    (refresh_token st resp).1.token =
      match resp with
      | HttpResult.exc => st.token
      | HttpResult.ok body =>
        match findToken body with
        | some t => t
        | none => st.token := by
  cases resp with
  | exc => rfl
  | ok body =>
    simp only [refresh_token]
    cases findToken body with
    | some t => rfl
    | none => rfl

/-- C6 counterexample: a JSON object whose `data` field holds a
non-sequence value is returned verbatim — the result is the number 5, not
an empty sequence, because line 112 does not validate the field shape. -/
theorem c6_counterexample :
    (get_all_data (ExtractorState.mk "T") HttpResult.exc
      (PostResp.ok (JVal.jobj [("data", JVal.jnum 5)]))).2.1 = JVal.jnum 5 ∧
    JVal.jnum 5 ≠ JVal.jarr [] :=
  ⟨rfl, fun h => JVal.noConfusion h⟩

/-- C6 (amended): with a token stored, `get_all_data` issues exactly one
data request (never a retry) and returns without raising: an empty
sequence on a transport/parse failure, a non-object JSON body, or a
missing `data` key — but the `data` value verbatim when present, even
when it is not a sequence. -/
theorem c6_amended_fetch_result (st : ExtractorState) (rr : HttpResult) (pr : PostResp)
    (h : st.token ≠ "") :
    (get_all_data st rr pr).2.1 =
      (match pr with
       | PostResp.exc => JVal.jarr []
       | PostResp.ok j =>
         match jdataField j with
         | some v => v
         | none => JVal.jarr []) ∧
    (get_all_data st rr pr).2.2 = [NetAction.postData] := by
  rw [get_all_data, if_neg h]
  constructor
  · cases pr with
    | exc => rfl
    | ok j =>
      simp only [doPost]
      cases jdataField j <;> rfl
  · cases pr with
    | exc => rfl
    | ok j =>
      simp only [doPost]
      cases jdataField j <;> rfl

/-- C6 witness: amended statement applied at a concrete response whose
`data` field holds an empty sequence. -/
theorem c6_amended_fetch_result_witness :
    (get_all_data (ExtractorState.mk "T") HttpResult.exc
        (PostResp.ok (JVal.jobj [("data", JVal.jarr [])]))).2.1 =
      (match PostResp.ok (JVal.jobj [("data", JVal.jarr [])]) with
       | PostResp.exc => JVal.jarr []
       | PostResp.ok j =>
         match jdataField j with
         | some v => v
         | none => JVal.jarr []) ∧
    (get_all_data (ExtractorState.mk "T") HttpResult.exc
        (PostResp.ok (JVal.jobj [("data", JVal.jarr [])]))).2.2 = [NetAction.postData] :=
  c6_amended_fetch_result (ExtractorState.mk "T") HttpResult.exc
    (PostResp.ok (JVal.jobj [("data", JVal.jarr [])])) (by decide)

/-- C8: on a mapping (nodup keys) whose timezone-matching values agree and
whose identifier-branch values agree — as for a Raw Slot Record, which has
exactly one time field and at most one identifier field — the per-record
normalization result is invariant under any permutation of the field
iteration order. -/
theorem c8_field_order_independent (s s2 : SlotRecord) (hp : s.Perm s2)
    (hnd : (s.map Prod.fst).Nodup)
    (htz : ∀ kv ∈ s, ∀ kv2 ∈ s, tzVal kv = true → tzVal kv2 = true → kv.2 = kv2.2)
    (hid : ∀ kv ∈ s, ∀ kv2 ∈ s, idOnlyVal kv = true → idOnlyVal kv2 = true → kv.2 = kv2.2) :
    processRecord s = processRecord s2 := by
  have hlook : s.lookup "SisaQuota" = s2.lookup "SisaQuota" := lookup_perm hp hnd _
  have hsisa : getSisa s = getSisa s2 := by rw [getSisa, getSisa, hlook]
  have hfst : (scanRecord s).1 = (scanRecord s2).1 := by
    cases hT : recordHasTZ s with
    | false =>
      have hT2 : recordHasTZ s2 = false := by
        rw [recordHasTZ, ← any_of_perm tzVal hp]
        exact hT
      rw [scanRecord, scanRecord, scan_fst_keep s _ _ hT, scan_fst_keep s2 _ _ hT2]
    | true =>
      have hT2 : recordHasTZ s2 = true := by
        rw [recordHasTZ, ← any_of_perm tzVal hp]
        exact hT
      obtain ⟨v, hv1, ⟨kv, hkm, hkv⟩, hv3⟩ := scan_fst_last s "N/A" "N/A" hT
      obtain ⟨v2, hw1, ⟨kv2, hkm2, hkv2⟩, hw3⟩ := scan_fst_last s2 "N/A" "N/A" hT2
      have hkm2s : kv2 ∈ s := hp.mem_iff.mpr hkm2
      have htv1 : tzVal kv = true := by simp [tzVal, hkv, hv1]
      have htv2 : tzVal kv2 = true := by simp [tzVal, hkv2, hw1]
      have heq := htz kv hkm kv2 hkm2s htv1 htv2
      rw [hkv, hkv2] at heq
      have hveq : v = v2 := Value.str.inj heq
      rw [scanRecord, scanRecord, hv3, hw3, hveq]
  have hsnd : (scanRecord s).2 = (scanRecord s2).2 := by
    cases hI : recordHasId s with
    | false =>
      have hI2 : recordHasId s2 = false := by
        rw [recordHasId, ← any_of_perm idOnlyVal hp]
        exact hI
      rw [scanRecord, scanRecord, scan_snd_keep s _ _ hI, scan_snd_keep s2 _ _ hI2]
    | true =>
      have hI2 : recordHasId s2 = true := by
        rw [recordHasId, ← any_of_perm idOnlyVal hp]
        exact hI
      obtain ⟨v, hv1, hvid, ⟨kv, hkm, hkv⟩, hv4⟩ := scan_snd_last s "N/A" "N/A" hI
      obtain ⟨v2, hw1, hwid, ⟨kv2, hkm2, hkv2⟩, hw4⟩ := scan_snd_last s2 "N/A" "N/A" hI2
      have hkm2s : kv2 ∈ s := hp.mem_iff.mpr hkm2
      have hiv1 : idOnlyVal kv = true := by simp [idOnlyVal, hkv, hv1, hvid]
      have hiv2 : idOnlyVal kv2 = true := by simp [idOnlyVal, hkv2, hw1, hwid]
      have heq := hid kv hkm kv2 hkm2s hiv1 hiv2
      rw [hkv, hkv2] at heq
      have hveq : v = v2 := Value.str.inj heq
      rw [scanRecord, scanRecord, hv4, hw4, hveq]
  have hscan : scanRecord s = scanRecord s2 := by
    have e1 : scanRecord s = ((scanRecord s).1, (scanRecord s).2) := rfl
    have e2 : scanRecord s2 = ((scanRecord s2).1, (scanRecord s2).2) := rfl
    rw [e1, e2, hfst, hsnd]
  rw [processRecord, processRecord, hsisa, hscan]

/-- C8 witness: the two iteration orders of a concrete record. -/
theorem c8_field_order_independent_witness :
    processRecord slotD = processRecord slotE :=
  c8_field_order_independent slotD slotE (by decide) (by decide) (by decide) (by decide)
